import Mathlib

/-!
Shallow embedding of `wallet/src/sender.rs` (grin wallet sender path).

The file `sender.rs` is the only source file available; its collaborators
(`WalletData` and `tx_fee` from the wallet's `types` module, the `build`
module, the node client, the keychain) are modelled from the spec, as noted
in the doc comments below.  Stateful Rust code (the `with_wallet` closures)
is embedded as explicit state passing over `WalletData`; fallible code
returns `Except Error`; the external world (node tip, network POST results,
wallet-file lock acquisition) is an explicit `Env` record; panics and
observable effects are reified in a `RunResult` (outcome, final wallet,
ordered event trace).  Machine integers (`u64`) are modelled as `Nat`; the
one subtraction sites (`total - amount`, `amount - fee`) are guarded or
discussed where a claim touches them.  The external fee function `tx_fee`
(declared in `types`, not in the available source) is a parameter
`txFee : Nat → Nat → Option Nat → Nat` of every definition that calls it,
mirroring its Rust signature `tx_fee(num_inputs, num_outputs, override)`.
Key derivation is an opaque capability per the spec, modelled as a total
function from derivation index to identifier code.
-/

namespace GrinWallet

/-- Decidable equality for `Except` results, so that witnesses and
counterexamples can be evaluated by `decide`. -/
instance {ε α : Type} [DecidableEq ε] [DecidableEq α] :
    DecidableEq (Except ε α) := fun x y =>
  match x, y with
  | Except.ok a, Except.ok b =>
    if h : a = b then isTrue (by rw [h])
    else isFalse (by intro hc; cases hc; exact h rfl)
  | Except.error a, Except.error b =>
    if h : a = b then isTrue (by rw [h])
    else isFalse (by intro hc; cases hc; exact h rfl)
  | Except.ok _, Except.error _ => isFalse (by intro hc; cases hc)
  | Except.error _, Except.ok _ => isFalse (by intro hc; cases hc)

/-- Status of a wallet output, as in the wallet's `OutputStatus` enum. -/
inductive OutputStatus
  | Unspent
  | Unconfirmed
  | Locked
  | Spent
deriving DecidableEq, Repr

/-- An owned output record in the wallet ledger (`OutputData` in the wallet
sources).  Identifiers are modelled as `Nat` codes; `Identifier::zero()` is
the code `0`. -/
structure OutputData where
  root_key_id : Nat
  key_id : Nat
  n_child : Nat
  value : Nat
  status : OutputStatus
  height : Nat
  lock_height : Nat
  is_coinbase : Bool
deriving DecidableEq, Repr

/-- The keychain, an opaque key-derivation capability per the spec:
a root key identifier and a total derivation map from index to identifier.
(`Keychain::burn_enabled` only alters the hidden crypto material, not the
identifiers, so the burn path reuses the same model keychain.) -/
structure Keychain where
  root_key_id : Nat
  derive_key_id : Nat → Nat

/-- Modelled from the spec: the wallet ledger (`WalletData` in the wallet's
`types` module, not under the available source).  A keyed collection of
outputs plus a monotonically increasing derivation counter minting fresh
identifiers, never reissued even if the output it named is deleted. -/
structure WalletData where
  outputs : List OutputData
  derivation : Nat
deriving DecidableEq, Repr

/-- Modelled from the spec: `next_child` mints the next unused derivation
index and advances the never-reissued counter. -/
def next_child (w : WalletData) : Nat × WalletData :=
  (w.derivation, ⟨w.outputs, w.derivation + 1⟩)

/-- Modelled from the spec: `add_output` records a new output in the ledger. -/
def add_output (o : OutputData) (w : WalletData) : WalletData :=
  ⟨w.outputs ++ [o], w.derivation⟩

/-- Modelled from the spec: `delete_output` removes the output with the given
key identifier from the ledger. -/
def delete_output (key : Nat) (w : WalletData) : WalletData :=
  ⟨w.outputs.filter (fun o => !(o.key_id == key)), w.derivation⟩

/-- Modelled from the spec: `lock_output` marks the output matching the given
coin's key identifier as `Locked`. -/
def lock_output (coin : OutputData) (w : WalletData) : WalletData :=
  ⟨w.outputs.map (fun o =>
      if o.key_id == coin.key_id then
        { o with status := OutputStatus.Locked }
      else o),
    w.derivation⟩

/-- Locking every selected coin, the body of the `update_wallet` closure in
`issue_send_tx`. -/
def lockAll (coins : List OutputData) (w : WalletData) : WalletData :=
  coins.foldl (fun acc c => lock_output c acc) w

/-- Sum of the values of a list of outputs. -/
def sumValues (coins : List OutputData) : Nat :=
  (coins.map OutputData.value).sum

/-- Error taxonomy of the sender path (spec section 7): insufficient funds
carries the available total; `Node` covers node-communication and dispatch
failures; `WalletStore` covers wallet-file (ledger store) failures. -/
inductive Error
  | NotEnoughFunds (available : Nat)
  | Node
  | WalletStore
deriving DecidableEq, Repr

/-- Modelled from the spec: eligibility of an output for coin selection
(spec section 4.2): only `Unspent` outputs under the root key, enough
confirmations, and coinbase outputs additionally mature. -/
def eligible (root_key_id current_height minimum_confirmations : Nat)
    (o : OutputData) : Bool :=
  decide (o.status = OutputStatus.Unspent) &&
  decide (o.root_key_id = root_key_id) &&
  decide (o.height + minimum_confirmations ≤ current_height) &&
  (!o.is_coinbase || decide (o.lock_height ≤ current_height))

/-- Insertion step of the largest-value-first ordering used by the minimal
selection strategy. -/
def insertByValueDesc (o : OutputData) : List OutputData → List OutputData
  | [] => [o]
  | x :: xs =>
    if x.value < o.value then o :: x :: xs else x :: insertByValueDesc o xs

/-- Largest-value-first insertion sort for the minimal selection strategy. -/
def sortByValueDesc : List OutputData → List OutputData
  | [] => []
  | x :: xs => insertByValueDesc x (sortByValueDesc xs)

/-- Greedy accumulation for the minimal strategy: take outputs until the
accumulated value reaches the target, bounded by the remaining slots. -/
def greedyTake (target acc slots : Nat) (os : List OutputData) :
    List OutputData :=
  match slots, os with
  | 0, _ => []
  | _ + 1, [] => []
  | s + 1, o :: rest =>
    if target ≤ acc then [] else o :: greedyTake target (acc + o.value) s rest

/-- Modelled from the spec: `select_coins` (spec section 4.2; the function
lives in the wallet's `types` module, not under the available source).
Filters the eligible outputs; fails with `NotEnoughFunds` over the eligible
total when even all of them do not reach the target; otherwise either
returns all eligible outputs (`strategy = true`, AllEligible) or a greedy
largest-first selection bounded by `max_outputs` (`strategy = false`,
Minimal).  The mapping of the boolean to the two strategies is an assumption
of the model; no claim below depends on it. -/
def select_coins (w : WalletData) (root_key_id target current_height
    minimum_confirmations : Nat) (max_outputs : Nat) (strategy : Bool) :
    Except Error (List OutputData) :=
  let elig := w.outputs.filter
    (eligible root_key_id current_height minimum_confirmations)
  if sumValues elig < target then
    Except.error (Error.NotEnoughFunds (sumValues elig))
  else if strategy then
    Except.ok elig
  else
    Except.ok (greedyTake target 0 max_outputs (sortByValueDesc elig))

/-- A transaction-skeleton part, the `build::Append` elements pushed by
`inputs_and_change` and its callers: `build::input`, `build::output`,
`build::with_fee`, `build::with_lock_height`. -/
inductive Append
  | input (value : Nat) (key : Nat)
  | output (value : Nat) (key : Nat)
  | withFee (fee : Nat)
  | withLockHeight (h : Nat)
deriving DecidableEq, Repr

/-- The materialized transaction fields: inputs and outputs as
(value, identifier) pairs, a fee, and a lock height. -/
structure Transaction where
  inputs : List (Nat × Nat)
  outputs : List (Nat × Nat)
  fee : Nat
  lock_height : Nat
deriving DecidableEq, Repr

/-- Applying one skeleton part to a transaction under construction. -/
def applyAppend (tx : Transaction) (p : Append) : Transaction :=
  match p with
  | Append.input v k => { tx with inputs := tx.inputs ++ [(v, k)] }
  | Append.output v k => { tx with outputs := tx.outputs ++ [(v, k)] }
  | Append.withFee f => { tx with fee := f }
  | Append.withLockHeight h => { tx with lock_height := h }

/-- Modelled from the spec: `build::transaction` (the `build` module is not
under the available source) consumes the ordered parts exactly once and
materializes the concrete transaction fields (spec sections 3 and 4.3).
The aggregate blinding factor it also returns is opaque crypto, out of
scope of the claims, and omitted. -/
def buildTransaction (parts : List Append) : Transaction :=
  parts.foldl applyAppend ⟨[], [], 0, 0⟩

/-- Embedding of `inputs_and_change` (sender.rs lines 187-242).  The
`with_wallet` closure recording the change output is explicit state passing:
the function returns the fallible result together with the wallet after the
call.  `total < amount` fails with `NotEnoughFunds(total)` before any ledger
mutation; otherwise the fee part, one input part per coin (with its derived
key), and the change output part (value `total - amount`) are produced, and
a new `Unconfirmed` change output at the next unused derivation index is
recorded in the ledger. -/
def inputs_and_change (txFee : Nat → Nat → Option Nat → Nat)
    (keychain : Keychain) (coins : List OutputData) (amount : Nat)
    (w : WalletData) : Except Error (List Append × Nat) × WalletData :=
  let total := sumValues coins
  if total < amount then
    (Except.error (Error.NotEnoughFunds total), w)
  else
    let fee := txFee coins.length 2 none
    let change := total - amount
    let inputParts := coins.map
      (fun coin => Append.input coin.value (keychain.derive_key_id coin.n_child))
    let step := next_child w
    let change_derivation := step.1
    let change_key := keychain.derive_key_id change_derivation
    let changeOutput : OutputData :=
      { root_key_id := keychain.root_key_id
        key_id := change_key
        n_child := change_derivation
        value := change
        status := OutputStatus.Unconfirmed
        height := 0
        lock_height := 0
        is_coinbase := false }
    let w1 := add_output changeOutput step.2
    (Except.ok
      (Append.withFee fee :: inputParts ++ [Append.output change change_key],
        change_key),
      w1)

/-- Embedding of `build_send_tx` (sender.rs lines 104-138): select coins,
build the skeleton with inputs and change, append the lock-height part, and
materialize the transaction. -/
def build_send_tx (txFee : Nat → Nat → Option Nat → Nat) (keychain : Keychain)
    (amount current_height minimum_confirmations lock_height : Nat)
    (max_outputs : Nat) (default_strategy : Bool) (w : WalletData) :
    Except Error (Transaction × List OutputData × Nat) × WalletData :=
  match select_coins w keychain.root_key_id amount current_height
      minimum_confirmations max_outputs default_strategy with
  | Except.error e => (Except.error e, w)
  | Except.ok coins =>
    match inputs_and_change txFee keychain coins amount w with
    | (Except.error e, w1) => (Except.error e, w1)
    | (Except.ok (parts, change_key), w1) =>
      let tx := buildTransaction (parts ++ [Append.withLockHeight lock_height])
      (Except.ok (tx, coins, change_key), w1)

/-- The external world of one run: whether `refresh_outputs` succeeds, the
node tip (`none` is a node-communication failure), whether the POST to the
receiver (or the pool push) succeeds, and whether the wallet-file
acquisitions made by the `update_wallet` and `rollback_wallet` closures
succeed. -/
structure Env where
  refreshOk : Bool
  tip : Option Nat
  postOk : Bool
  commitOk : Bool
  rollbackOk : Bool
deriving DecidableEq, Repr

/-- Observable effects of a run, in the order they happen: writing the
partial transaction to standard output, committing (locking the selected
coins), rolling back (deleting the change output), and attempting the POST. -/
inductive Event
  | emitStdout
  | commit
  | rollback
  | post
deriving DecidableEq, Repr

/-- Final outcome of a run: normal return, error return, the panic from the
out-of-bounds byte slice `&dest[..4]`, or the explicit unsupported
destination panic. -/
inductive Outcome
  | ok
  | err (e : Error)
  | panicSlice
  | panicUsage
deriving DecidableEq, Repr

/-- Result of one orchestrator run: outcome, final wallet ledger, and the
ordered trace of observable effects. -/
structure RunResult where
  outcome : Outcome
  wallet : WalletData
  trace : List Event
deriving DecidableEq, Repr

/-- Whether byte position `n` of the UTF-8 encoding of the character list is
a character boundary (including the end of the string); Rust string slicing
`&dest[..n]` panics exactly when it is not. -/
def charBoundaryAt : Nat → List Char → Bool
  | 0, _ => true
  | _ + 1, [] => false
  | n + 1, c :: cs =>
    if c.utf8Size ≤ n + 1 then charBoundaryAt (n + 1 - c.utf8Size) cs
    else false

/-- Byte length of the UTF-8 encoding of a string. -/
def utf8Len (s : String) : Nat :=
  (s.data.map Char.utf8Size).sum

/-- Embedding of `issue_send_tx` (sender.rs lines 33-99).  Refresh and tip
fetch come first; then `build_send_tx`; then dispatch on the destination
string: the literal `"stdout"` serializes, commits by locking the coins, and
prints; otherwise the code takes the byte slice `&dest[..4]` — a panic when
byte 4 is not a character boundary (in particular when the byte length is
below 4) — and compares it to `"http"`: on the http path a POST failure
triggers the rollback closure (deleting the change output) and returns the
original result, with the rollback's own failure propagated by `?` instead;
any other destination hits the explicit `panic!`.  Note that the first four
bytes equal `"http"` exactly when the first four characters are
`h`, `t`, `t`, `p`. -/
def issue_send_tx (env : Env) (txFee : Nat → Nat → Option Nat → Nat)
    (keychain : Keychain) (amount minimum_confirmations : Nat) (dest : String)
    (max_outputs : Nat) (selection_strategy : Bool) (w : WalletData) :
    RunResult :=
  if env.refreshOk then
    match env.tip with
    | none => ⟨Outcome.err Error.Node, w, []⟩
    | some current_height =>
      let lock_height := current_height
      match build_send_tx txFee keychain amount current_height
          minimum_confirmations lock_height max_outputs selection_strategy w with
      | (Except.error e, w1) => ⟨Outcome.err e, w1, []⟩
      | (Except.ok (_tx, coins, change_key), w1) =>
        if dest = "stdout" then
          if env.commitOk then
            ⟨Outcome.ok, lockAll coins w1, [Event.commit, Event.emitStdout]⟩
          else
            ⟨Outcome.err Error.WalletStore, w1, []⟩
        else if charBoundaryAt 4 dest.data then
          if dest.data.take 4 = ['h', 't', 't', 'p'] then
            if env.postOk then
              if env.commitOk then
                ⟨Outcome.ok, lockAll coins w1, [Event.post, Event.commit]⟩
              else
                ⟨Outcome.err Error.WalletStore, w1, [Event.post]⟩
            else
              if env.rollbackOk then
                ⟨Outcome.err Error.Node, delete_output change_key w1,
                  [Event.post, Event.rollback]⟩
              else
                ⟨Outcome.err Error.WalletStore, w1, [Event.post]⟩
          else
            ⟨Outcome.panicUsage, w1, []⟩
        else
          ⟨Outcome.panicSlice, w1, []⟩
  else
    ⟨Outcome.err Error.Node, w, []⟩

/-- Embedding of the burn-skeleton construction inside `issue_burn_tx`
(sender.rs lines 170-174): `inputs_and_change` (which records a change
output), then the burn output part `build::output(amount - fee,
Identifier::zero())`.  In Rust `amount - fee` is a `u64` subtraction; the
claims below only use `fee ≤ amount`, where `Nat` subtraction agrees. -/
def burn_parts (txFee : Nat → Nat → Option Nat → Nat) (keychain : Keychain)
    (coins : List OutputData) (amount : Nat) (w : WalletData) :
    Except Error (List Append) × WalletData :=
  match inputs_and_change txFee keychain coins amount w with
  | (Except.error e, w1) => (Except.error e, w1)
  | (Except.ok (parts, _change_key), w1) =>
    let fee := txFee coins.length 2 none
    (Except.ok (parts ++ [Append.output (amount - fee) 0]), w1)

/-- Embedding of `issue_burn_tx` (sender.rs lines 140-185): fetch the tip,
refresh (result ignored by `let _`), select coins with the non-default
strategy flag, build the burn skeleton via `inputs_and_change` plus the burn
output, materialize and push to the node's pool endpoint.  `tx.validate()`
is external core validation (opaque crypto) modelled as passing.  There is
no rollback: a push failure returns with the ledger as the skeleton
construction left it. -/
def issue_burn_tx (env : Env) (txFee : Nat → Nat → Option Nat → Nat)
    (keychain : Keychain) (amount minimum_confirmations : Nat)
    (max_outputs : Nat) (w : WalletData) : RunResult :=
  match env.tip with
  | none => ⟨Outcome.err Error.Node, w, []⟩
  | some current_height =>
    match select_coins w keychain.root_key_id amount current_height
        minimum_confirmations max_outputs false with
    | Except.error e => ⟨Outcome.err e, w, []⟩
    | Except.ok coins =>
      match burn_parts txFee keychain coins amount w with
      | (Except.error e, w1) => ⟨Outcome.err e, w1, []⟩
      | (Except.ok parts, w1) =>
        let _tx_burn := buildTransaction parts
        if env.postOk then
          ⟨Outcome.ok, w1, [Event.post]⟩
        else
          ⟨Outcome.err Error.Node, w1, [Event.post]⟩

/-- The change output that a successful `inputs_and_change` call on `coins`,
`amount` and wallet `w` records: value `total - amount`, `Unconfirmed`,
height `0`, lock height `0`, keyed by the next unused derivation index. -/
def changeOutputOf (keychain : Keychain) (coins : List OutputData)
    (amount : Nat) (w : WalletData) : OutputData :=
  { root_key_id := keychain.root_key_id
    key_id := keychain.derive_key_id w.derivation
    n_child := w.derivation
    value := sumValues coins - amount
    status := OutputStatus.Unconfirmed
    height := 0
    lock_height := 0
    is_coinbase := false }

/-- The skeleton parts a successful `inputs_and_change` call returns: the fee
part, one input part per coin, and the change output part. -/
def sendPartsOf (txFee : Nat → Nat → Option Nat → Nat) (keychain : Keychain)
    (coins : List OutputData) (amount : Nat) (w : WalletData) : List Append :=
  Append.withFee (txFee coins.length 2 none) ::
    coins.map (fun c => Append.input c.value (keychain.derive_key_id c.n_child)) ++
    [Append.output (sumValues coins - amount) (keychain.derive_key_id w.derivation)]

/-- The wallet after a successful `inputs_and_change` call: the change output
appended, the derivation counter advanced. -/
def walletAfterChange (keychain : Keychain) (coins : List OutputData)
    (amount : Nat) (w : WalletData) : WalletData :=
  ⟨w.outputs ++ [changeOutputOf keychain coins amount w], w.derivation + 1⟩

/-- The input parts of a skeleton, in order, as (value, key) pairs. -/
def inputsOf : List Append → List (Nat × Nat)
  | [] => []
  | Append.input v k :: ps => (v, k) :: inputsOf ps
  | Append.output _ _ :: ps => inputsOf ps
  | Append.withFee _ :: ps => inputsOf ps
  | Append.withLockHeight _ :: ps => inputsOf ps

/-- The output parts of a skeleton, in order, as (value, key) pairs. -/
def outputsOf : List Append → List (Nat × Nat)
  | [] => []
  | Append.input _ _ :: ps => outputsOf ps
  | Append.output v k :: ps => (v, k) :: outputsOf ps
  | Append.withFee _ :: ps => outputsOf ps
  | Append.withLockHeight _ :: ps => outputsOf ps

/-- Sum of the value components of a list of (value, key) pairs. -/
def sumFst (l : List (Nat × Nat)) : Nat :=
  (l.map Prod.fst).sum

/-- A concrete fee function for witnesses and counterexamples: the constant
fee `80`, the fee value used in the explanatory comment inside
`inputs_and_change` in the source. -/
def exFee : Nat → Nat → Option Nat → Nat := fun _ _ _ => 80

/-- A concrete model keychain for witnesses and counterexamples. -/
def exKeychain : Keychain := ⟨0, fun n => n + 100⟩

/-- A concrete unspent output of value `10000` (the setup of the spec's
scenario A). -/
def exOutput : OutputData :=
  ⟨0, 101, 1, 10000, OutputStatus.Unspent, 100, 0, false⟩

/-- A concrete wallet holding only `exOutput`, derivation counter at `2`. -/
def exWallet : WalletData := ⟨[exOutput], 2⟩

/-- A fully successful environment: refresh ok, tip at height `100`, POST
succeeds, both wallet-file acquisitions succeed. -/
def exEnv : Env := ⟨true, some 100, true, true, true⟩

theorem foldl_applyAppend_inputs (ps : List Append) (tx : Transaction) :
    (ps.foldl applyAppend tx).inputs = tx.inputs ++ inputsOf ps := by
  induction ps generalizing tx with
  | nil => simp [inputsOf]
  | cons p ps ih => cases p <;> simp [applyAppend, inputsOf, ih]

theorem foldl_applyAppend_outputs (ps : List Append) (tx : Transaction) :
    (ps.foldl applyAppend tx).outputs = tx.outputs ++ outputsOf ps := by
  induction ps generalizing tx with
  | nil => simp [outputsOf]
  | cons p ps ih => cases p <;> simp [applyAppend, outputsOf, ih]

theorem buildTransaction_inputs (ps : List Append) :
    (buildTransaction ps).inputs = inputsOf ps := by
  simp [buildTransaction, foldl_applyAppend_inputs]

theorem buildTransaction_outputs (ps : List Append) :
    (buildTransaction ps).outputs = outputsOf ps := by
  simp [buildTransaction, foldl_applyAppend_outputs]

theorem inputsOf_append (a b : List Append) :
    inputsOf (a ++ b) = inputsOf a ++ inputsOf b := by
  induction a with
  | nil => simp [inputsOf]
  | cons p ps ih => cases p <;> simp [inputsOf, ih]

theorem outputsOf_append (a b : List Append) :
    outputsOf (a ++ b) = outputsOf a ++ outputsOf b := by
  induction a with
  | nil => simp [outputsOf]
  | cons p ps ih => cases p <;> simp [outputsOf, ih]

theorem inputsOf_map_input (coins : List OutputData) (f : OutputData → Nat) :
    inputsOf (coins.map (fun c => Append.input c.value (f c))) =
      coins.map (fun c => (c.value, f c)) := by
  induction coins with
  | nil => simp [inputsOf]
  | cons c cs ih => simp [inputsOf, ih]

theorem outputsOf_map_input (coins : List OutputData) (f : OutputData → Nat) :
    outputsOf (coins.map (fun c => Append.input c.value (f c))) = [] := by
  induction coins with
  | nil => simp [outputsOf]
  | cons c cs ih => simp [outputsOf, ih]

theorem sumFst_map_value (coins : List OutputData) (f : OutputData → Nat) :
    sumFst (coins.map (fun c => (c.value, f c))) = sumValues coins := by
  induction coins with
  | nil => simp [sumFst, sumValues]
  | cons c cs ih =>
    simp only [sumFst, sumValues, List.map_cons, List.sum_cons] at ih ⊢
    omega

theorem inputs_and_change_ok (txFee : Nat → Nat → Option Nat → Nat)
    (keychain : Keychain) (coins : List OutputData) (amount : Nat)
    (w : WalletData) (hfunds : amount ≤ sumValues coins) :
    inputs_and_change txFee keychain coins amount w =
      (Except.ok (sendPartsOf txFee keychain coins amount w,
          keychain.derive_key_id w.derivation),
        walletAfterChange keychain coins amount w) := by
  simp only [inputs_and_change, next_child, add_output, sendPartsOf,
    changeOutputOf, walletAfterChange]
  rw [if_neg (by omega)]

theorem build_send_tx_ok (txFee : Nat → Nat → Option Nat → Nat)
    (keychain : Keychain) (amount current_height minimum_confirmations
    lock_height : Nat) (max_outputs : Nat) (default_strategy : Bool)
    (w : WalletData) (coins : List OutputData)
    (hsel : select_coins w keychain.root_key_id amount current_height
      minimum_confirmations max_outputs default_strategy = Except.ok coins)
    (hfunds : amount ≤ sumValues coins) :
    build_send_tx txFee keychain amount current_height minimum_confirmations
        lock_height max_outputs default_strategy w =
      (Except.ok
        (buildTransaction (sendPartsOf txFee keychain coins amount w ++
            [Append.withLockHeight lock_height]),
          coins, keychain.derive_key_id w.derivation),
        walletAfterChange keychain coins amount w) := by
  simp only [build_send_tx, hsel,
    inputs_and_change_ok txFee keychain coins amount w hfunds]

theorem mem_insertByValueDesc {a o : OutputData} {l : List OutputData} :
    a ∈ insertByValueDesc o l ↔ a = o ∨ a ∈ l := by
  induction l with
  | nil => simp [insertByValueDesc]
  | cons x xs ih =>
    simp only [insertByValueDesc]
    split
    · simp
    · simp [ih]
      tauto

theorem mem_sortByValueDesc {a : OutputData} {l : List OutputData} :
    a ∈ sortByValueDesc l ↔ a ∈ l := by
  induction l with
  | nil => simp [sortByValueDesc]
  | cons x xs ih => simp [sortByValueDesc, mem_insertByValueDesc, ih]

theorem mem_greedyTake {a : OutputData} {target : Nat} :
    ∀ {l : List OutputData} {acc slots : Nat},
      a ∈ greedyTake target acc slots l → a ∈ l := by
  intro l
  induction l with
  | nil =>
    intro acc slots h
    cases slots <;> simp [greedyTake] at h
  | cons o rest ih =>
    intro acc slots h
    cases slots with
    | zero => simp [greedyTake] at h
    | succ s =>
      simp only [greedyTake] at h
      split at h
      · simp at h
      · rcases List.mem_cons.mp h with h | h
        · exact h ▸ List.mem_cons_self _ _
        · exact List.mem_cons_of_mem _ (ih h)

theorem select_coins_mem {w : WalletData} {root_key_id target current_height
    minimum_confirmations : Nat} {max_outputs : Nat} {strategy : Bool}
    {coins : List OutputData}
    (h : select_coins w root_key_id target current_height
      minimum_confirmations max_outputs strategy = Except.ok coins) :
    ∀ c ∈ coins, c ∈ w.outputs ∧
      eligible root_key_id current_height minimum_confirmations c = true := by
  intro c hc
  simp only [select_coins] at h
  split at h
  · cases h
  · split at h
    · cases h
      exact And.symm (And.comm.mp (List.mem_filter.mp hc))
    · cases h
      exact And.symm (And.comm.mp
        (List.mem_filter.mp (mem_sortByValueDesc.mp (mem_greedyTake hc))))

theorem eligible_unspent {root_key_id current_height minimum_confirmations :
    Nat} {o : OutputData}
    (h : eligible root_key_id current_height minimum_confirmations o = true) :
    o.status = OutputStatus.Unspent := by
  simp only [eligible, Bool.and_eq_true, decide_eq_true_eq] at h
  exact h.1.1.1

theorem filter_key_ne {l : List OutputData} {k : Nat}
    (h : ∀ o ∈ l, o.key_id ≠ k) :
    l.filter (fun o => !(o.key_id == k)) = l := by
  apply List.filter_eq_self.mpr
  intro a ha
  simpa using h a ha

theorem charBoundaryAt_le {cs : List Char} :
    ∀ {n : Nat}, charBoundaryAt n cs = true → n ≤ (cs.map Char.utf8Size).sum := by
  induction cs with
  | nil =>
    intro n h
    cases n with
    | zero => simp
    | succ m => simp [charBoundaryAt] at h
  | cons c cs ih =>
    intro n h
    cases n with
    | zero => simp
    | succ m =>
      simp only [charBoundaryAt] at h
      split at h
      · have := ih h
        simp only [List.map_cons, List.sum_cons]
        omega
      · cases h

theorem charBoundaryAt_of_take_http {cs : List Char}
    (h : cs.take 4 = ['h', 't', 't', 'p']) : charBoundaryAt 4 cs = true := by
  cases cs with
  | nil => simp at h
  | cons a cs1 =>
    cases cs1 with
    | nil => simp at h
    | cons b cs2 =>
      cases cs2 with
      | nil => simp at h
      | cons c cs3 =>
        cases cs3 with
        | nil => simp at h
        | cons d rest =>
          simp only [List.take, List.cons.injEq] at h
          obtain ⟨ha, hb, hc, hd, -⟩ := h
          subst ha hb hc hd
          have h1 : Char.utf8Size 'h' = 1 := by decide
          have h2 : Char.utf8Size 't' = 1 := by decide
          have h3 : Char.utf8Size 'p' = 1 := by decide
          simp only [charBoundaryAt, h1, h2, h3]
          norm_num
          cases rest <;> simp [charBoundaryAt]

/-- Claim C6: whenever `inputs_and_change` succeeds on coins with total value
`total` and requested `amount`, it records — before returning (hence before
any transmission by its callers), inside the single `with_wallet` ledger
acquisition, at the next unused derivation index — a new change output with
value `total - amount` (independent of the fee: the fee function is
universally quantified and absent from the value), status `Unconfirmed`,
height `0`, lock height `0`, and returns that output's identifier; the
derivation counter advances past the consumed index. -/
theorem inputs_and_change_records_change_output
    (txFee : Nat → Nat → Option Nat → Nat) (keychain : Keychain)
    (coins : List OutputData) (amount : Nat) (w : WalletData)
    (hfunds : amount ≤ sumValues coins) :
    (inputs_and_change txFee keychain coins amount w).1 =
      Except.ok (sendPartsOf txFee keychain coins amount w,
        keychain.derive_key_id w.derivation) ∧
    (inputs_and_change txFee keychain coins amount w).2 =
      ⟨w.outputs ++
        [{ root_key_id := keychain.root_key_id
           key_id := keychain.derive_key_id w.derivation
           n_child := w.derivation
           value := sumValues coins - amount
           status := OutputStatus.Unconfirmed
           height := 0
           lock_height := 0
           is_coinbase := false }],
        w.derivation + 1⟩ := by
  rw [inputs_and_change_ok txFee keychain coins amount w hfunds]
  exact ⟨rfl, rfl⟩

/-- Witness for C6 at the concrete scenario-A input: one coin of value
`10000`, amount `1000`, derivation counter `2`: the recorded change output
has value `9000`, key `102`, index `2`, status `Unconfirmed`. -/
theorem inputs_and_change_records_change_output_witness :
    (inputs_and_change exFee exKeychain [exOutput] 1000 exWallet).1 =
      Except.ok ([Append.withFee 80, Append.input 10000 101,
        Append.output 9000 102], 102) ∧
    (inputs_and_change exFee exKeychain [exOutput] 1000 exWallet).2 =
      ⟨[exOutput, ⟨0, 102, 2, 9000, OutputStatus.Unconfirmed, 0, 0, false⟩],
        3⟩ := by
  have h := inputs_and_change_records_change_output exFee exKeychain
    [exOutput] 1000 exWallet (by decide)
  exact ⟨h.1.trans (by decide), h.2.trans (by decide)⟩

/-- Claim C7: `inputs_and_change` returns `NotEnoughFunds(total)`, with
`total` the sum of the selected coins' values, exactly when `total < amount`;
in that case it returns with the wallet untouched: no change output recorded
and no derivation index consumed. -/
theorem not_enough_funds_iff (txFee : Nat → Nat → Option Nat → Nat)
    (keychain : Keychain) (coins : List OutputData) (amount : Nat)
    (w : WalletData) :
    (∀ t, (inputs_and_change txFee keychain coins amount w).1 =
        Except.error (Error.NotEnoughFunds t) ↔
      (sumValues coins < amount ∧ t = sumValues coins)) ∧
    (sumValues coins < amount →
      inputs_and_change txFee keychain coins amount w =
        (Except.error (Error.NotEnoughFunds (sumValues coins)), w)) := by
  by_cases hlt : sumValues coins < amount
  · have hv : inputs_and_change txFee keychain coins amount w =
        (Except.error (Error.NotEnoughFunds (sumValues coins)), w) := by
      simp [inputs_and_change, hlt]
    refine ⟨fun t => ?_, fun _ => hv⟩
    rw [hv]
    simp only [Except.error.injEq, Error.NotEnoughFunds.injEq]
    exact ⟨fun h => ⟨hlt, h.symm⟩, fun h => h.2.symm⟩
  · have hv := inputs_and_change_ok txFee keychain coins amount w (by omega)
    refine ⟨fun t => ?_, fun h => absurd h hlt⟩
    rw [hv]
    simp [hlt]

/-- Witness for C7: against a single coin of value `10000`, a request for
`20000` fails with `NotEnoughFunds(10000)` and leaves the wallet exactly as
it was (the spec's scenario C), while at `t = 9999` the error is not
produced. -/
theorem not_enough_funds_iff_witness :
    inputs_and_change exFee exKeychain [exOutput] 20000 exWallet =
      (Except.error (Error.NotEnoughFunds 10000), exWallet) ∧
    ¬ (inputs_and_change exFee exKeychain [exOutput] 20000 exWallet).1 =
        Except.error (Error.NotEnoughFunds 9999) := by
  have h := not_enough_funds_iff exFee exKeychain [exOutput] 20000 exWallet
  refine ⟨(h.2 (by decide)).trans (by decide), fun hc => ?_⟩
  have := (h.1 9999).mp hc
  exact absurd this.2 (by decide)

/-- Claim C9 is false as stated: with one selected coin of value `10000` and
`amount = 10000`, `inputs_and_change` succeeds and records a change output
whose value is `0`, not strictly positive. -/
theorem zero_value_change_output_cex :
    (inputs_and_change exFee exKeychain [exOutput] 10000 exWallet).1 =
      Except.ok ([Append.withFee 80, Append.input 10000 101,
        Append.output 0 102], 102) ∧
    (inputs_and_change exFee exKeychain [exOutput] 10000 exWallet).2.outputs.getLast? =
      some ⟨0, 102, 2, 0, OutputStatus.Unconfirmed, 0, 0, false⟩ ∧
    ¬ 0 < (0 : Nat) := by
  decide

/-- Claim C9 (amended): the change output recorded by a successful
`inputs_and_change` call has value `total - amount`, which is strictly
positive exactly when `amount < total`; when `total = amount` a zero-valued
change output is recorded, so `value > 0` is not an invariant of recorded
outputs. -/
theorem change_value_pos_iff (txFee : Nat → Nat → Option Nat → Nat)
    (keychain : Keychain) (coins : List OutputData) (amount : Nat)
    (w : WalletData) (hfunds : amount ≤ sumValues coins) :
    (inputs_and_change txFee keychain coins amount w).2.outputs =
      w.outputs ++ [changeOutputOf keychain coins amount w] ∧
    (0 < (changeOutputOf keychain coins amount w).value ↔
      amount < sumValues coins) := by
  rw [inputs_and_change_ok txFee keychain coins amount w hfunds]
  refine ⟨rfl, ?_⟩
  simp only [changeOutputOf]
  omega

/-- Witness for C9's amended statement at the scenario-A input: the change
output of value `9000` is recorded and is positive since `1000 < 10000`. -/
theorem change_value_pos_iff_witness :
    (inputs_and_change exFee exKeychain [exOutput] 1000 exWallet).2.outputs =
      [exOutput, ⟨0, 102, 2, 9000, OutputStatus.Unconfirmed, 0, 0, false⟩] ∧
    (0 < (changeOutputOf exKeychain [exOutput] 1000 exWallet).value ↔
      (1000 : Nat) < sumValues [exOutput]) := by
  have h := change_value_pos_iff exFee exKeychain [exOutput] 1000 exWallet
    (by decide)
  exact ⟨h.1.trans (by decide), h.2⟩

/-- Claim C1 is false as stated: at the scenario-A input (one input of value
`10000`, `amount = 1000`, fee `80`) the built transaction's inputs sum to
`10000`, its change output holds `9000` and its fee part holds `80`, but
`amount + change + fee = 1000 + 9000 + 80 = 10080 ≠ 10000`. -/
theorem conservation_with_fee_false :
    (inputs_and_change exFee exKeychain [exOutput] 1000 exWallet).1 =
      Except.ok ([Append.withFee 80, Append.input 10000 101,
        Append.output 9000 102], 102) ∧
    sumFst (buildTransaction ([Append.withFee 80, Append.input 10000 101,
      Append.output 9000 102] ++ [Append.withLockHeight 100])).inputs = 10000 ∧
    (buildTransaction ([Append.withFee 80, Append.input 10000 101,
      Append.output 9000 102] ++ [Append.withLockHeight 100])).outputs =
      [(9000, 102)] ∧
    (buildTransaction ([Append.withFee 80, Append.input 10000 101,
      Append.output 9000 102] ++ [Append.withLockHeight 100])).fee = 80 ∧
    (10000 : Nat) ≠ 1000 + 9000 + 80 := by
  decide

/-- Claim C1 (amended): for every transaction built by the send path
(`inputs_and_change` followed by appending the lock-height part and
building), the sum of the input values equals `amount + change` exactly,
where `change` is the change output's value (the only output of the
sender-side skeleton); the fee is not added on top of this sum — it is paid
out of `amount` by the counterparty's output construction. -/
theorem send_tx_conservation (txFee : Nat → Nat → Option Nat → Nat)
    (keychain : Keychain) (coins : List OutputData)
    (amount lock_height : Nat) (w : WalletData) (parts : List Append)
    (change_key : Nat)
    (h : (inputs_and_change txFee keychain coins amount w).1 =
      Except.ok (parts, change_key)) :
    (buildTransaction (parts ++ [Append.withLockHeight lock_height])).outputs =
      [(sumValues coins - amount, change_key)] ∧
    sumFst (buildTransaction
        (parts ++ [Append.withLockHeight lock_height])).inputs =
      amount + (sumValues coins - amount) := by
  by_cases hlt : sumValues coins < amount
  · simp [inputs_and_change, hlt] at h
  · rw [inputs_and_change_ok txFee keychain coins amount w (by omega)] at h
    obtain ⟨hp, hk⟩ : parts = sendPartsOf txFee keychain coins amount w ∧
        change_key = keychain.derive_key_id w.derivation := by
      cases h
      exact ⟨rfl, rfl⟩
    subst hp hk
    have hin : inputsOf (sendPartsOf txFee keychain coins amount w ++
        [Append.withLockHeight lock_height]) =
        coins.map (fun c => (c.value, keychain.derive_key_id c.n_child)) := by
      simp [sendPartsOf, inputsOf_append, inputsOf, inputsOf_map_input]
    constructor
    · rw [buildTransaction_outputs]
      simp [sendPartsOf, outputsOf_append, outputsOf, outputsOf_map_input]
    · rw [buildTransaction_inputs, hin, sumFst_map_value]
      omega

/-- Witness for C1's amended statement at the scenario-A input: inputs sum
to `10000 = 1000 + 9000`. -/
theorem send_tx_conservation_witness :
    (buildTransaction ([Append.withFee 80, Append.input 10000 101,
      Append.output 9000 102] ++ [Append.withLockHeight 100])).outputs =
      [(9000, 102)] ∧
    sumFst (buildTransaction ([Append.withFee 80, Append.input 10000 101,
      Append.output 9000 102] ++ [Append.withLockHeight 100])).inputs =
      1000 + 9000 := by
  have h := send_tx_conservation exFee exKeychain [exOutput] 1000 100
    exWallet [Append.withFee 80, Append.input 10000 101,
      Append.output 9000 102] 102 (by decide)
  exact ⟨h.1.trans (by decide), h.2.trans (by decide)⟩

theorem issue_send_tx_http_failed (env : Env)
    (txFee : Nat → Nat → Option Nat → Nat) (keychain : Keychain)
    (amount minimum_confirmations : Nat) (dest : String) (max_outputs : Nat)
    (selection_strategy : Bool) (w : WalletData) (height : Nat)
    (coins : List OutputData)
    (hrefresh : env.refreshOk = true) (htip : env.tip = some height)
    (hsel : select_coins w keychain.root_key_id amount height
      minimum_confirmations max_outputs selection_strategy = Except.ok coins)
    (hfunds : amount ≤ sumValues coins)
    (hdest1 : dest ≠ "stdout")
    (hdest2 : dest.data.take 4 = ['h', 't', 't', 'p'])
    (hpost : env.postOk = false) :
    issue_send_tx env txFee keychain amount minimum_confirmations dest
        max_outputs selection_strategy w =
      if env.rollbackOk then
        ⟨Outcome.err Error.Node,
          delete_output (keychain.derive_key_id w.derivation)
            (walletAfterChange keychain coins amount w),
          [Event.post, Event.rollback]⟩
      else
        ⟨Outcome.err Error.WalletStore,
          walletAfterChange keychain coins amount w, [Event.post]⟩ := by
  have hb := charBoundaryAt_of_take_http hdest2
  have hbuild := build_send_tx_ok txFee keychain amount height
    minimum_confirmations height max_outputs selection_strategy w coins hsel
    hfunds
  simp [issue_send_tx, hrefresh, htip, hbuild, hdest1, hdest2, hb, hpost]

/-- Claim C3 is false as stated: at a concrete input where the POST fails
and the rollback also fails, the call returns the rollback's wallet-store
error — the original dispatch (node) error is replaced, not propagated. -/
theorem rollback_error_masks_dispatch_cex :
    (issue_send_tx ⟨true, some 100, false, true, false⟩ exFee exKeychain 1000
      0 "http://unreachable:1" 500 false exWallet).outcome =
      Outcome.err Error.WalletStore ∧
    (issue_send_tx ⟨true, some 100, false, true, false⟩ exFee exKeychain 1000
      0 "http://unreachable:1" 500 false exWallet).outcome ≠
      Outcome.err Error.Node := by
  decide

/-- Claim C3 (amended): when the http dispatch fails and the rollback also
fails, the `?` on the rollback closure returns the rollback's own error and
the original dispatch failure is replaced (it is only logged, never
returned); the change output is left undeleted in the ledger. -/
theorem rollback_failure_replaces_dispatch_error (env : Env)
    (txFee : Nat → Nat → Option Nat → Nat) (keychain : Keychain)
    (amount minimum_confirmations : Nat) (dest : String) (max_outputs : Nat)
    (selection_strategy : Bool) (w : WalletData) (height : Nat)
    (coins : List OutputData)
    (hrefresh : env.refreshOk = true) (htip : env.tip = some height)
    (hsel : select_coins w keychain.root_key_id amount height
      minimum_confirmations max_outputs selection_strategy = Except.ok coins)
    (hfunds : amount ≤ sumValues coins)
    (hdest1 : dest ≠ "stdout")
    (hdest2 : dest.data.take 4 = ['h', 't', 't', 'p'])
    (hpost : env.postOk = false) (hroll : env.rollbackOk = false) :
    issue_send_tx env txFee keychain amount minimum_confirmations dest
        max_outputs selection_strategy w =
      ⟨Outcome.err Error.WalletStore,
        walletAfterChange keychain coins amount w, [Event.post]⟩ := by
  rw [issue_send_tx_http_failed env txFee keychain amount
    minimum_confirmations dest max_outputs selection_strategy w height coins
    hrefresh htip hsel hfunds hdest1 hdest2 hpost]
  rw [if_neg]
  simp [hroll]

/-- Witness for C3's amended statement at the concrete failing-rollback
input. -/
theorem rollback_failure_replaces_dispatch_error_witness :
    issue_send_tx ⟨true, some 100, false, true, false⟩ exFee exKeychain 1000
        0 "http://unreachable:1" 500 false exWallet =
      ⟨Outcome.err Error.WalletStore,
        ⟨[exOutput, ⟨0, 102, 2, 9000, OutputStatus.Unconfirmed, 0, 0, false⟩],
          3⟩,
        [Event.post]⟩ := by
  have h := rollback_failure_replaces_dispatch_error
    ⟨true, some 100, false, true, false⟩ exFee exKeychain 1000 0
    "http://unreachable:1" 500 false exWallet 100 [exOutput] rfl rfl
    (by decide) (by decide) (by decide) (by decide) rfl rfl
  exact h.trans (by decide)

/-- Claim C4: on an http destination whose POST fails with a succeeding
rollback, the change output recorded during the attempt is deleted (the
ledger's outputs are exactly as before the call), no selected coin is
locked — each is still present with status `Unspent` — no commit event ever
happens, and the original dispatch error is the returned error. -/
theorem http_failure_rollback_restores_ledger (env : Env)
    (txFee : Nat → Nat → Option Nat → Nat) (keychain : Keychain)
    (amount minimum_confirmations : Nat) (dest : String) (max_outputs : Nat)
    (selection_strategy : Bool) (w : WalletData) (height : Nat)
    (coins : List OutputData)
    (hrefresh : env.refreshOk = true) (htip : env.tip = some height)
    (hsel : select_coins w keychain.root_key_id amount height
      minimum_confirmations max_outputs selection_strategy = Except.ok coins)
    (hfunds : amount ≤ sumValues coins)
    (hdest1 : dest ≠ "stdout")
    (hdest2 : dest.data.take 4 = ['h', 't', 't', 'p'])
    (hpost : env.postOk = false) (hroll : env.rollbackOk = true)
    (hfresh : ∀ o ∈ w.outputs,
      o.key_id ≠ keychain.derive_key_id w.derivation) :
    (issue_send_tx env txFee keychain amount minimum_confirmations dest
      max_outputs selection_strategy w).outcome = Outcome.err Error.Node ∧
    (issue_send_tx env txFee keychain amount minimum_confirmations dest
      max_outputs selection_strategy w).wallet.outputs = w.outputs ∧
    Event.commit ∉ (issue_send_tx env txFee keychain amount
      minimum_confirmations dest max_outputs selection_strategy w).trace ∧
    ∀ c ∈ coins,
      c ∈ (issue_send_tx env txFee keychain amount minimum_confirmations dest
        max_outputs selection_strategy w).wallet.outputs ∧
      c.status = OutputStatus.Unspent := by
  rw [issue_send_tx_http_failed env txFee keychain amount
    minimum_confirmations dest max_outputs selection_strategy w height coins
    hrefresh htip hsel hfunds hdest1 hdest2 hpost]
  rw [if_pos hroll]
  have houts : (delete_output (keychain.derive_key_id w.derivation)
      (walletAfterChange keychain coins amount w)).outputs = w.outputs := by
    simp only [delete_output, walletAfterChange, changeOutputOf,
      List.filter_append]
    rw [filter_key_ne hfresh]
    simp
  refine ⟨rfl, houts, by simp, fun c hc => ?_⟩
  obtain ⟨hcw, helig⟩ := select_coins_mem hsel c hc
  exact ⟨by rw [houts]; exact hcw, eligible_unspent helig⟩

/-- Witness for C4 at the scenario-B input: POST to an http destination
fails, the rollback restores the ledger to exactly the original unspent
output, and the node error is returned. -/
theorem http_failure_rollback_restores_ledger_witness :
    (issue_send_tx ⟨true, some 100, false, true, true⟩ exFee exKeychain 1000
      0 "http://unreachable:1" 500 false exWallet).outcome =
      Outcome.err Error.Node ∧
    (issue_send_tx ⟨true, some 100, false, true, true⟩ exFee exKeychain 1000
      0 "http://unreachable:1" 500 false exWallet).wallet.outputs =
      [exOutput] ∧
    Event.commit ∉ (issue_send_tx ⟨true, some 100, false, true, true⟩ exFee
      exKeychain 1000 0 "http://unreachable:1" 500 false exWallet).trace ∧
    exOutput ∈ (issue_send_tx ⟨true, some 100, false, true, true⟩ exFee
      exKeychain 1000 0 "http://unreachable:1" 500 false
      exWallet).wallet.outputs ∧
    exOutput.status = OutputStatus.Unspent := by
  have h := http_failure_rollback_restores_ledger
    ⟨true, some 100, false, true, true⟩ exFee exKeychain 1000 0
    "http://unreachable:1" 500 false exWallet 100 [exOutput] rfl rfl
    (by decide) (by decide) (by decide) (by decide) rfl rfl (by decide)
  refine ⟨h.1, h.2.1.trans (by decide), h.2.2.1, ?_, by decide⟩
  exact (h.2.2.2 exOutput (by decide)).1

/-- Claim C5 is false as stated: on the stdout path the trace is
`[commit, emitStdout]` — the commit (locking the coins) strictly precedes
the emission to standard output. -/
theorem stdout_commit_before_emit_cex :
    (issue_send_tx exEnv exFee exKeychain 1000 0 "stdout" 500 false
      exWallet).trace = [Event.commit, Event.emitStdout] ∧
    List.indexOf Event.commit
        (issue_send_tx exEnv exFee exKeychain 1000 0 "stdout" 500 false
          exWallet).trace <
      List.indexOf Event.emitStdout
        (issue_send_tx exEnv exFee exKeychain 1000 0 "stdout" 500 false
          exWallet).trace := by
  decide

/-- Claim C5 (amended): on the stdout path only the in-memory serialization
precedes the commit; the write to standard output happens strictly after
the commit (locking the selected coins), and is skipped entirely if the
commit fails — the emission never precedes the commit. -/
theorem stdout_commit_precedes_emission (env : Env)
    (txFee : Nat → Nat → Option Nat → Nat) (keychain : Keychain)
    (amount minimum_confirmations : Nat) (max_outputs : Nat)
    (selection_strategy : Bool) (w : WalletData) (height : Nat)
    (coins : List OutputData)
    (hrefresh : env.refreshOk = true) (htip : env.tip = some height)
    (hcommit : env.commitOk = true)
    (hsel : select_coins w keychain.root_key_id amount height
      minimum_confirmations max_outputs selection_strategy = Except.ok coins)
    (hfunds : amount ≤ sumValues coins) :
    issue_send_tx env txFee keychain amount minimum_confirmations "stdout"
        max_outputs selection_strategy w =
      ⟨Outcome.ok, lockAll coins (walletAfterChange keychain coins amount w),
        [Event.commit, Event.emitStdout]⟩ := by
  have hbuild := build_send_tx_ok txFee keychain amount height
    minimum_confirmations height max_outputs selection_strategy w coins hsel
    hfunds
  simp [issue_send_tx, hrefresh, htip, hbuild, hcommit]

/-- Witness for C5's amended statement at the scenario-A input. -/
theorem stdout_commit_precedes_emission_witness :
    issue_send_tx exEnv exFee exKeychain 1000 0 "stdout" 500 false exWallet =
      ⟨Outcome.ok,
        ⟨[⟨0, 101, 1, 10000, OutputStatus.Locked, 100, 0, false⟩,
          ⟨0, 102, 2, 9000, OutputStatus.Unconfirmed, 0, 0, false⟩], 3⟩,
        [Event.commit, Event.emitStdout]⟩ := by
  have h := stdout_commit_precedes_emission exEnv exFee exKeychain 1000 0 500
    false exWallet 100 [exOutput] rfl rfl rfl (by decide) (by decide)
  exact h.trans (by decide)

/-- Claim C10: for any destination that is not `"stdout"` and whose byte
length is below 4, `issue_send_tx` panics on the out-of-bounds slice
`&dest[..4]` instead of reaching the unsupported-destination usage branch;
the panic happens after the change output was recorded and before any
rollback, which therefore never runs (empty trace). -/
theorem short_dest_panics_after_change_recorded (env : Env)
    (txFee : Nat → Nat → Option Nat → Nat) (keychain : Keychain)
    (amount minimum_confirmations : Nat) (dest : String) (max_outputs : Nat)
    (selection_strategy : Bool) (w : WalletData) (height : Nat)
    (coins : List OutputData)
    (hrefresh : env.refreshOk = true) (htip : env.tip = some height)
    (hsel : select_coins w keychain.root_key_id amount height
      minimum_confirmations max_outputs selection_strategy = Except.ok coins)
    (hfunds : amount ≤ sumValues coins)
    (hdest1 : dest ≠ "stdout") (hshort : utf8Len dest < 4) :
    issue_send_tx env txFee keychain amount minimum_confirmations dest
        max_outputs selection_strategy w =
      ⟨Outcome.panicSlice, walletAfterChange keychain coins amount w, []⟩ := by
  have hb4 : charBoundaryAt 4 dest.data = false := by
    cases hcb : charBoundaryAt 4 dest.data
    · rfl
    · exfalso
      have := charBoundaryAt_le hcb
      rw [utf8Len] at hshort
      omega
  have hbuild := build_send_tx_ok txFee keychain amount height
    minimum_confirmations height max_outputs selection_strategy w coins hsel
    hfunds
  simp [issue_send_tx, hrefresh, htip, hbuild, hdest1, hb4]

/-- Witness for C10 with the two-byte destination `"xy"`: the run ends in
the slice panic with the change output already in the ledger and no
rollback in the trace. -/
theorem short_dest_panics_after_change_recorded_witness :
    issue_send_tx exEnv exFee exKeychain 1000 0 "xy" 500 false exWallet =
      ⟨Outcome.panicSlice,
        ⟨[exOutput, ⟨0, 102, 2, 9000, OutputStatus.Unconfirmed, 0, 0, false⟩],
          3⟩,
        []⟩ := by
  have h := short_dest_panics_after_change_recorded exEnv exFee exKeychain
    1000 0 "xy" 500 false exWallet 100 [exOutput] rfl rfl (by decide)
    (by decide) (by decide) (by decide)
  exact h.trans (by decide)

/-- Claim C2 is false as stated: at a concrete input where the pool push
fails, `issue_burn_tx` has already recorded a change output of value `9000`
(via its `inputs_and_change` call) and consumed a derivation index, so the
wallet ledger after the failed call differs from the ledger before it. -/
theorem burn_mutates_ledger_cex :
    (issue_burn_tx ⟨true, some 100, false, true, true⟩ exFee exKeychain 1000
      0 500 exWallet).outcome = Outcome.err Error.Node ∧
    (issue_burn_tx ⟨true, some 100, false, true, true⟩ exFee exKeychain 1000
      0 500 exWallet).wallet.outputs =
      [exOutput, ⟨0, 102, 2, 9000, OutputStatus.Unconfirmed, 0, 0, false⟩] ∧
    (issue_burn_tx ⟨true, some 100, false, true, true⟩ exFee exKeychain 1000
      0 500 exWallet).wallet ≠ exWallet := by
  decide

/-- Claim C2 (amended): `issue_burn_tx` does create a change output — its
`inputs_and_change` call records one of value `total - amount` and consumes
a derivation index before the push — and on a push failure no rollback
runs, so the wallet ledger keeps the new change output and the advanced
derivation counter rather than returning to its pre-call state. -/
theorem burn_records_change_before_push (env : Env)
    (txFee : Nat → Nat → Option Nat → Nat) (keychain : Keychain)
    (amount minimum_confirmations : Nat) (max_outputs : Nat) (w : WalletData)
    (height : Nat) (coins : List OutputData)
    (htip : env.tip = some height)
    (hsel : select_coins w keychain.root_key_id amount height
      minimum_confirmations max_outputs false = Except.ok coins)
    (hfunds : amount ≤ sumValues coins)
    (hpost : env.postOk = false) :
    issue_burn_tx env txFee keychain amount minimum_confirmations max_outputs
        w =
      ⟨Outcome.err Error.Node, walletAfterChange keychain coins amount w,
        [Event.post]⟩ := by
  have hbp : burn_parts txFee keychain coins amount w =
      (Except.ok (sendPartsOf txFee keychain coins amount w ++
          [Append.output (amount - txFee coins.length 2 none) 0]),
        walletAfterChange keychain coins amount w) := by
    simp only [burn_parts,
      inputs_and_change_ok txFee keychain coins amount w hfunds]
  simp [issue_burn_tx, htip, hsel, hbp, hpost]

/-- Witness for C2's amended statement at the concrete failing-push input. -/
theorem burn_records_change_before_push_witness :
    issue_burn_tx ⟨true, some 100, false, true, true⟩ exFee exKeychain 1000 0
        500 exWallet =
      ⟨Outcome.err Error.Node,
        ⟨[exOutput, ⟨0, 102, 2, 9000, OutputStatus.Unconfirmed, 0, 0, false⟩],
          3⟩,
        [Event.post]⟩ := by
  have h := burn_records_change_before_push ⟨true, some 100, false, true,
    true⟩ exFee exKeychain 1000 0 500 exWallet 100 [exOutput] rfl (by decide)
    (by decide) rfl
  exact h.trans (by decide)

/-- Claim C8 is false as stated: at the concrete input with one selected
coin of value `10000`, `amount = 1000` and fee `80`, the burn transaction's
output to the all-zero identifier holds `920 = amount - fee`, not
`Σ coins.value - fee = 9920`. -/
theorem burn_output_value_cex :
    (burn_parts exFee exKeychain [exOutput] 1000 exWallet).1 =
      Except.ok [Append.withFee 80, Append.input 10000 101,
        Append.output 9000 102, Append.output 920 0] ∧
    (buildTransaction [Append.withFee 80, Append.input 10000 101,
      Append.output 9000 102, Append.output 920 0]).outputs.filter
        (fun p => p.2 == 0) = [(920, 0)] ∧
    (920 : Nat) ≠ sumValues [exOutput] - exFee 1 2 none := by
  decide

/-- Claim C8 (amended): the burn transaction built by `issue_burn_tx`
contains an output to the all-zero identifier whose value is
`amount - tx_fee(len(coins), 2, None)` — the requested amount minus the fee,
not the entire input value minus the fee; the remainder `total - amount`
goes to the change output that `inputs_and_change` records. -/
theorem burn_output_is_amount_minus_fee
    (txFee : Nat → Nat → Option Nat → Nat) (keychain : Keychain)
    (coins : List OutputData) (amount : Nat) (w : WalletData)
    (parts : List Append)
    (h : (burn_parts txFee keychain coins amount w).1 = Except.ok parts) :
    (buildTransaction parts).outputs =
      [(sumValues coins - amount, keychain.derive_key_id w.derivation),
        (amount - txFee coins.length 2 none, 0)] := by
  by_cases hlt : sumValues coins < amount
  · simp [burn_parts, inputs_and_change, hlt] at h
  · rw [show burn_parts txFee keychain coins amount w =
        (Except.ok (sendPartsOf txFee keychain coins amount w ++
            [Append.output (amount - txFee coins.length 2 none) 0]),
          walletAfterChange keychain coins amount w) from by
      simp only [burn_parts,
        inputs_and_change_ok txFee keychain coins amount w (by omega)]] at h
    have hp : parts = sendPartsOf txFee keychain coins amount w ++
        [Append.output (amount - txFee coins.length 2 none) 0] := by
      cases h
      rfl
    subst hp
    rw [buildTransaction_outputs]
    simp [sendPartsOf, outputsOf_append, outputsOf, outputsOf_map_input]

/-- Witness for C8's amended statement at the concrete input: the burn
output holds `920 = 1000 - 80`. -/
theorem burn_output_is_amount_minus_fee_witness :
    (buildTransaction [Append.withFee 80, Append.input 10000 101,
      Append.output 9000 102, Append.output 920 0]).outputs =
      [(9000, 102), (920, 0)] := by
  have h := burn_output_is_amount_minus_fee exFee exKeychain [exOutput] 1000
    exWallet [Append.withFee 80, Append.input 10000 101,
      Append.output 9000 102, Append.output 920 0] (by decide)
  exact h.trans (by decide)

end GrinWallet
